import Mathlib

/-!
Verification of core claims about the PyCTrace fact-extraction, data-flow
tracking and graph-unification engine.  Each component of the Python code
base is shallowly embedded as executable Lean definitions; the theorems at
the end of the file settle the frozen claims against these definitions.
-/

namespace PyCTrace

/-! ## Shared string helpers (Python `in`, `strip`, `strip('"')`) -/

/-- Python substring test `pat in s`. -/
def strContains (s pat : String) : Bool :=
  s.toList.tails.any (fun t => pat.toList.isPrefixOf t)

/-- Python `s.strip('"')`: remove all leading and trailing double quotes. -/
def stripQuotes (s : String) : String :=
  String.mk (((s.toList.dropWhile (· == '"')).reverse.dropWhile (· == '"')).reverse)

/-- Python `c in s` for a single character. -/
def strContainsChar (s : String) (c : Char) : Bool :=
  s.toList.contains c

/-- Python `s.strip()`: remove leading and trailing whitespace. -/
def pyStrip (s : String) : String :=
  String.mk (((s.toList.dropWhile Char.isWhitespace).reverse.dropWhile Char.isWhitespace).reverse)

def splitOnCharAux (c : Char) : List Char → List Char → List String
  | [], acc => [String.mk acc.reverse]
  | d :: ds, acc =>
    if d == c then String.mk acc.reverse :: splitOnCharAux c ds []
    else splitOnCharAux c ds (d :: acc)

/-- Python `s.split(c)` for a single-character separator (empty parts kept). -/
def splitOnChar (c : Char) (s : String) : List String :=
  splitOnCharAux c s.toList []

/-- Python `sep.join(parts)`. -/
def joinWith (sep : String) : List String → String
  | [] => ""
  | [x] => x
  | x :: xs => x ++ sep ++ joinWith sep xs

/-! ## Syntax-tree model

The parsing service (tree-sitter) is an external collaborator; its output is
modelled as a rose tree of nodes carrying the node kind, the source text of
the node, the 0-based start row, and the field label the node carries in its
parent (tree-sitter `child_by_field_name`). -/

inductive CNode where
  | node (type : String) (text : String) (startRow : Nat) (field : Option String)
      (children : List CNode)

def CNode.type : CNode → String
  | .node ty _ _ _ _ => ty

def CNode.text : CNode → String
  | .node _ tx _ _ _ => tx

def CNode.startRow : CNode → Nat
  | .node _ _ r _ _ => r

def CNode.field : CNode → Option String
  | .node _ _ _ f _ => f

def CNode.children : CNode → List CNode
  | .node _ _ _ _ cs => cs

/-- tree-sitter `node.child_by_field_name(f)`: first child carrying field `f`. -/
def childByField (n : CNode) (f : String) : Option CNode :=
  n.children.find? (fun c => c.field == some f)

/-! ## DependencyTracker (`src/C/py_call_extractor.py`)

The per-function data-dependency graph produced by `DDG.construct_ddg` is
modelled as the data the tracker consumes: an ordered list of statement nodes
(`id`, `line`, `text`, `type`) plus the per-node def/use maps
(`ddg.defs.get(node.id, set())` / `ddg.uses.get(node.id, set())`). -/

namespace PyCallExtractor

structure DDGNode where
  id : Nat
  line : Nat
  text : String
  type : String

structure DDG where
  nodes : List DDGNode
  defs : Nat → Finset String
  uses : Nat → Finset String

/-- A `context_statements` entry appended by `_extract_related_statements`. -/
structure CtxStmt where
  line : Nat
  text : String
  type : String
  defs : Finset String
  uses : Finset String

/-- Mutable loop state of `_extract_related_statements`:
`vars_to_track`, `added_statements` and `context`. -/
structure TrackState where
  tracked : Finset String
  added : Finset Nat
  context : List CtxStmt

def initState (initialVars : Finset String) : TrackState :=
  { tracked := initialVars, added := ∅, context := [] }

/-- The body of the inner `for node in ddg.nodes` loop of
`_extract_related_statements`. -/
def onePassStep (ddg : DDG) (st : TrackState) (nd : DDGNode) : TrackState :=
  if nd.line ∈ st.added then st
  else if ((ddg.defs nd.id ∪ ddg.uses nd.id) ∩ st.tracked).Nonempty then
    { tracked := st.tracked ∪ (ddg.defs nd.id ∪ ddg.uses nd.id),
      added := insert nd.line st.added,
      context := st.context ++ [⟨nd.line, nd.text, nd.type, ddg.defs nd.id, ddg.uses nd.id⟩] }
  else st

/-- One full sweep over `ddg.nodes` (one iteration of the `while changed`
loop).  The Python `changed` flag is true for a sweep exactly when
`vars_to_track` grew, i.e. when the resulting `tracked` differs. -/
def onePass (ddg : DDG) (st : TrackState) : TrackState :=
  ddg.nodes.foldl (onePassStep ddg) st

/-- The `while changed` loop, with an explicit sweep budget.  The loop stops
as soon as a sweep leaves `vars_to_track` unchanged. -/
def runLoop (ddg : DDG) : Nat → TrackState → TrackState
  | 0, st => st
  | n + 1, st =>
    let st' := onePass ddg st
    if st'.tracked = st.tracked then st' else runLoop ddg n st'

/-- Stable sort of the collected context by ascending `line`
(Python `context.sort(key=lambda x: x['line'])`). -/
def insertByLine (c : CtxStmt) : List CtxStmt → List CtxStmt
  | [] => [c]
  | d :: ds => if d.line ≤ c.line then d :: insertByLine c ds else c :: d :: ds

def sortByLine (l : List CtxStmt) : List CtxStmt :=
  l.foldl (fun acc c => insertByLine c acc) []

/-- The finite variable universe of a function: every variable occurring in
some statement's def or use set. -/
def varUniverse (ddg : DDG) : Finset String :=
  ddg.nodes.foldl (fun acc nd => acc ∪ (ddg.defs nd.id ∪ ddg.uses nd.id)) ∅

/-- Lines occurring in the dependency graph. -/
def lineSet (ddg : DDG) : Finset Nat :=
  (ddg.nodes.map (·.line)).toFinset

/-- `_extract_related_statements(ddg, initial_vars)`.  The unbounded
`while changed` loop is run with a sweep budget of `#nodes + 1`; the
fixed-point theorem below shows this budget is always sufficient. -/
def extractRelatedStatements (ddg : DDG) (initialVars : Finset String) : List CtxStmt :=
  sortByLine (runLoop ddg (ddg.nodes.length + 1) (initState initialVars)).context

/-- Seed-variable computation of `_extract_python_call_context`: walk
`ddg.nodes`, and at the first node whose line equals the call line take
`defs | uses`; `set()` when no node matches. -/
def seedVars (ddg : DDG) (callLine : Nat) : Finset String :=
  match ddg.nodes.find? (fun nd => nd.line == callLine) with
  | some nd => ddg.defs nd.id ∪ ddg.uses nd.id
  | none => ∅

structure CallContext where
  call_function : String
  call_line : Nat
  call_code : String
  context_statements : List CtxStmt

/-- `_extract_python_call_context`: seed from the call line, fixed-point
expansion, context sorted by line.  The call node's own attributes
(callee name, line, text) come from the external syntax tree and are
passed in directly. -/
def extractPythonCallContext (ddg : DDG) (callFunction : String) (callLine : Nat)
    (callCode : String) : CallContext :=
  let varsToTrack := seedVars ddg callLine
  let contextStatements := extractRelatedStatements ddg varsToTrack
  { call_function := callFunction, call_line := callLine, call_code := callCode,
    context_statements := sortByLine contextStatements }

/-- What the spec sentence for the seed describes, read with "statements"
plural: the union of the def/use sets of all statements located at the
call's source line. -/
def seedVarsSpec (ddg : DDG) (callLine : Nat) : Finset String :=
  (ddg.nodes.filter (fun nd => nd.line == callLine)).foldl
    (fun acc nd => acc ∪ (ddg.defs nd.id ∪ ddg.uses nd.id)) ∅

end PyCallExtractor

/-! ## Association-list model of Python dicts

Python dicts are insertion-ordered; repeated assignment overwrites, so a
lookup returns the value of the last binding. -/

abbrev Graph := List (String × List String)

def lookupG (g : Graph) (k : String) : Option (List String) :=
  (g.find? (fun p => p.1 == k)).map (·.2)

def hasKeyG (g : Graph) (k : String) : Bool :=
  (g.find? (fun p => p.1 == k)).isSome

/-- `if k not in g: g[k] = []`. -/
def ensureKey (g : Graph) (k : String) : Graph :=
  if hasKeyG g k then g else g ++ [(k, [])]

/-- `if v not in g[k]: g[k].append(v)` (no-op on missing keys). -/
def appendUnique (g : Graph) (k v : String) : Graph :=
  g.map (fun p => if p.1 == k then (p.1, if v ∈ p.2 then p.2 else p.2 ++ [v]) else p)

/-- `d.get(k, dflt)` over a binding list in assignment order. -/
def dictGet (l : List (String × String)) (k dflt : String) : String :=
  match l.reverse.find? (fun p => p.1 == k) with
  | some p => p.2
  | none => dflt

/-- `k in d` over a binding list. -/
def dictHas (l : List (String × String)) (k : String) : Bool :=
  (l.find? (fun p => p.1 == k)).isSome

/-! ## GraphMerger (`src/CallGraph/merger.py`) -/

namespace Merger

/-- The fields of `c_call_graph_data` consumed by the merger
(`build_python_related_call_graph` output). -/
structure CGraphData where
  call_graph : Graph
  python_related_functions : List String
  registered_c_functions : List (String × String)

/-- The fields of `python_call_graph_data` consumed by the merger. -/
structure PyGraphData where
  call_graph : Graph
  functions : List String

structure MergedData where
  merged_call_graph : Graph
  node_types : List (String × String)
  c_to_python_calls : List (String × String)
  python_to_c_calls : List (String × String)

/-- `unified_node_names`: for every registration `c ↦ p`, bind both `c` and
`p` to `"c(p)"`. -/
def unifiedNodeNames (registered : List (String × String)) : List (String × String) :=
  registered.foldl (fun acc cp => acc ++ [(cp.1, (cp.1 ++ "(" ++ cp.2 ++ ")")), (cp.2, (cp.1 ++ "(" ++ cp.2 ++ ")"))]) []

/-- Target normalization for an interpreter-side callee (step 5 of the
merger): registered name → unified id; dotted name → probe the trailing
component, else keep the full dotted name; otherwise
`unified.get(callee, callee)`. -/
def resolvePyCallee (pyToC unified : List (String × String)) (callee : String) : String :=
  if dictHas pyToC callee then dictGet unified callee callee
  else if strContainsChar callee '.' then
    let funcName := (splitOnChar '.' callee).getLastD ""
    if dictHas pyToC funcName then dictGet unified funcName funcName
    else callee
  else dictGet unified callee callee

/-- Target normalization for a native-side callee (step 4): strip a
parenthesized argument suffix, connect to interpreter functions by that base
name, otherwise canonicalize the raw callee. -/
def resolveCCallee (unified : List (String × String)) (pythonFunctions : List String)
    (callee : String) : String :=
  let calleeFuncName := if strContainsChar callee '(' then (splitOnChar '(' callee).headD callee else callee
  if calleeFuncName ∈ pythonFunctions then dictGet unified calleeFuncName calleeFuncName
  else dictGet unified callee callee

/-- Node-kind classification (step 6): base name = text before `(`;
registered base → `registered_c_function`, native → `c_function`,
otherwise → `python_function`. -/
def classifyNode (registered : List (String × String)) (cFunctions pythonFunctions : List String)
    (node : String) : String :=
  let baseName := if strContainsChar node '(' then (splitOnChar '(' node).headD node else node
  if dictHas registered baseName then "registered_c_function"
  else if baseName ∈ cFunctions ∨ node ∈ cFunctions then "c_function"
  else if baseName ∈ pythonFunctions ∨ node ∈ pythonFunctions then "python_function"
  else "python_function"

def typeOf (nodeTypes : List (String × String)) (n : String) : Option String :=
  (nodeTypes.find? (fun p => p.1 == n)).map (·.2)

/-- `merge_python_c_call_graph`. -/
def mergePythonCCallGraph (cData : CGraphData) (pData : PyGraphData) : MergedData :=
  let cCallGraph := cData.call_graph
  let pythonCallGraph := pData.call_graph
  let cFunctions := cData.python_related_functions
  let pythonFunctions := pData.functions
  let registered := cData.registered_c_functions
  let pyNameToCFunc := registered.map (fun cp => (cp.2, cp.1))
  let unified := unifiedNodeNames registered
  -- step 3: seed the merged graph with C nodes (unified ids) and the
  -- interpreter nodes that are not registered names of C functions
  let g0 : Graph := cFunctions.foldl (fun g func => ensureKey g (dictGet unified func func)) []
  let g1 : Graph := pythonFunctions.foldl
    (fun g func => if dictHas pyNameToCFunc func then g else ensureKey g func) g0
  -- step 4: native-side edges, targets normalized
  let g2 : Graph := cCallGraph.foldl (fun g ce =>
    let callerName := dictGet unified ce.1 ce.1
    let g := ensureKey g callerName
    ce.2.foldl (fun g callee =>
      appendUnique g callerName (resolveCCallee unified pythonFunctions callee)) g) g1
  -- step 5: interpreter-side edges, targets normalized
  let g3 : Graph := pythonCallGraph.foldl (fun g pe =>
    let callerName := dictGet unified pe.1 pe.1
    let g := ensureKey g callerName
    pe.2.foldl (fun g callee =>
      appendUnique g callerName (resolvePyCallee pyNameToCFunc unified callee)) g) g2
  -- step 6: node kinds and cross-language edge lists
  let nodeTypes : List (String × String) :=
    g3.map (fun p => (p.1, classifyNode registered cFunctions pythonFunctions p.1))
  let cToPython : List (String × String) := g3.foldl (fun acc pe =>
    pe.2.foldl (fun acc callee =>
      if typeOf nodeTypes pe.1 ∈ [some "c_function", some "registered_c_function"] ∧
          typeOf nodeTypes callee = some "python_function" then
        acc ++ [(pe.1, callee)]
      else acc) acc) []
  let pythonToC : List (String × String) := g3.foldl (fun acc pe =>
    pe.2.foldl (fun acc callee =>
      if typeOf nodeTypes pe.1 = some "python_function" ∧
          typeOf nodeTypes callee ∈ [some "c_function", some "registered_c_function"] then
        acc ++ [(pe.1, callee)]
      else acc) acc) []
  { merged_call_graph := g3, node_types := nodeTypes,
    c_to_python_calls := cToPython, python_to_c_calls := pythonToC }

end Merger

/-! ## CallSiteCollector (`src/C/c_parser.py`) -/

namespace CParser

/-- `_build_call_graph(functions, calls)`: one node per declared function
name (dict comprehension, so duplicate names collapse), then every
`(caller, callee)` pair is appended to the caller's list unless the caller
is unknown or the callee is already recorded for it. -/
def buildCallGraph (functions : List String) (calls : List (String × String)) : Graph :=
  let callGraph : Graph := functions.foldl (fun g f => ensureKey g f) []
  calls.foldl (fun g c =>
    if hasKeyG g c.1 then appendUnique g c.1 c.2 else g) callGraph

/-- All `(caller, callee)` edges readable from a collector output graph. -/
def graphPairs (g : Graph) : List (String × String) :=
  g.flatMap (fun p => p.2.map (fun c => (p.1, c)))

/-! ### Source reading (`_parse_source_code`, error handling)

The filesystem is a partial map from paths to decoded text and the parsing
service is an opaque function; `_parse_source_code` raises
`FileNotFoundError` when the path does not exist. -/

abbrev FileSystem := List (String × String)

def readFile (fs : FileSystem) (path : String) : Option String :=
  (fs.find? (fun p => p.1 == path)).map (·.2)

/-- `CCodeParser._parse_source_code`: explicit existence check, then read
and parse.  A missing file raises (Except.error). -/
def parseSourceCode (parse : String → CNode) (fs : FileSystem) (path : String) :
    Except String (CNode × String) :=
  match readFile fs path with
  | none => .error ("FileNotFoundError: " ++ path)
  | some sourceCode => .ok (parse sourceCode, sourceCode)

end CParser

/-! ## FunctionRegistry (`PythonCallExtractor` phase 1 in
`src/C/py_call_extractor.py`) -/

namespace PyCallExtractor

/-- `parse_files` file-reading loop: `open(...)` raises on a missing file,
with no surrounding try/except, so the first missing path aborts the batch. -/
def readAllFiles (fs : CParser.FileSystem) : List String → Except String (List (String × String))
  | [] => .ok []
  | p :: ps =>
    match CParser.readFile fs p with
    | none => .error ("FileNotFoundError: " ++ p)
    | some code => (readAllFiles fs ps).map (fun rest => (p, code) :: rest)

mutual

/-- `_find_functions`: collect every `function_definition` node (the node
itself, then its children, in preorder). -/
def findFunctions : CNode → List CNode
  | .node ty tx r f cs =>
    (if ty == "function_definition" then [CNode.node ty tx r f cs] else []) ++
      findFunctionsList cs

def findFunctionsList : List CNode → List CNode
  | [] => []
  | c :: cs => findFunctions c ++ findFunctionsList cs

end

mutual

/-- Helper of `_get_function_name_from_definition`: name from a
`function_declarator` (first identifier child) or through a
`pointer_declarator` (first child giving a non-empty name). -/
def extractFromNode : CNode → String
  | .node ty _ _ _ cs =>
    if ty == "function_declarator" then
      match cs.find? (fun c => c.type == "identifier") with
      | some c => c.text
      | none => ""
    else if ty == "pointer_declarator" then extractFromNodeList cs
    else ""

def extractFromNodeList : List CNode → String
  | [] => ""
  | c :: cs =>
    let r := extractFromNode c
    if r ≠ "" then r else extractFromNodeList cs

end

def getFunctionNameFromDefinition (funcNode : CNode) : String :=
  extractFromNodeList funcNode.children

structure FunctionInfo where
  function_name : String
  file : String
  line : Nat
  code : String
deriving DecidableEq

abbrev FunctionMap := List (String × List FunctionInfo)

/-- `self.all_functions[name].append(info)` with insertion-ordered keys. -/
def addFunctionInfo (m : FunctionMap) (name : String) (info : FunctionInfo) : FunctionMap :=
  if (m.find? (fun p => p.1 == name)).isSome then
    m.map (fun p => if p.1 == name then (p.1, p.2 ++ [info]) else p)
  else m ++ [(name, [info])]

/-- The pure content of `_get_all_functions`: rebuild the global function
registry from the parsed files. -/
def buildAllFunctions (parse : String → CNode) (parsedFiles : List (String × String)) :
    FunctionMap :=
  parsedFiles.foldl (fun m pf =>
    let rootNode := parse pf.2
    (findFunctions rootNode).foldl (fun m funcNode =>
      let funcName := getFunctionNameFromDefinition funcNode
      if funcName ≠ "" then
        addFunctionInfo m funcName
          ⟨funcName, pf.1, funcNode.startRow + 1, funcNode.text⟩
      else m) m) []

structure ExtractorState where
  all_functions : FunctionMap

/-- `_get_all_functions` as a state transformer: it first resets
`self.all_functions = {}` and then fills it from the given file set only. -/
def getAllFunctions (parse : String → CNode) (st : ExtractorState)
    (parsedFiles : List (String × String)) : ExtractorState :=
  let _ := st
  { all_functions := buildAllFunctions parse parsedFiles }

end PyCallExtractor

/-! ## RegistrationResolver (`src/C/python_registration_extractor.py`) -/

namespace RegistrationExtractor

/-- Element texts of a method-table entry as collected by
`_parse_single_method_entry`: children of kind string/identifier/field
expression, texts stripped. -/
def entryElements (entryNode : CNode) : List String :=
  (entryNode.children.filter (fun c =>
    c.type == "string_literal" ∨ c.type == "identifier" ∨ c.type == "field_expression")).map
    (fun c => pyStrip c.text)

structure MethodEntry where
  python_name : String
  c_function : String
  flags : String
  doc : String
deriving DecidableEq

/-- `_parse_single_method_entry`: keep an entry when it has at least two
collected elements and the text `NULL` does not occur inside the first one. -/
def parseSingleMethodEntry (entryNode : CNode) : Option MethodEntry :=
  let elements := entryElements entryNode
  if 2 ≤ elements.length ∧ ¬ strContains (elements.headD "") "NULL" then
    some { python_name := stripQuotes (elements.headD ""),
           c_function := elements.getD 1 "",
           flags := if 2 < elements.length then elements.getD 2 "" else "",
           doc := if 3 < elements.length then stripQuotes (elements.getD 3 "") else "" }
  else none

/-- `_parse_method_entries`: every `initializer_list` child of the array
initializer parsed as one method entry. -/
def parseMethodEntries (initializerNode : CNode) : List MethodEntry :=
  initializerNode.children.filterMap (fun c =>
    if c.type == "initializer_list" then parseSingleMethodEntry c else none)

structure ModuleDefInfo where
  struct_name : String
  module_name : String
  methods_array : String
deriving DecidableEq

/-- Field texts of a `PyModuleDef` initializer as collected by
`_parse_pymoduledef_struct` (same node-kind filter as for method entries). -/
def moduleDefFields (initializerNode : CNode) : List String :=
  (initializerNode.children.filter (fun c =>
    c.type == "string_literal" ∨ c.type == "identifier" ∨ c.type == "field_expression")).map
    (fun c => pyStrip c.text)

/-- `_parse_pymoduledef_struct`: last `init_declarator` wins; the module
name comes from the second collected field, the methods-array reference from
the fifth collected field when it exists. -/
def parsePyModuleDefStruct (declNode : CNode) : Option ModuleDefInfo :=
  let res := declNode.children.foldl
    (fun (acc : Option String × Option String × Option String) child =>
      if child.type == "init_declarator" then
        let structName := match childByField child "declarator" with
          | some d => some d.text
          | none => acc.1
        let rest := match childByField child "value" with
          | some ini =>
            if ini.type == "initializer_list" then
              let fields := moduleDefFields ini
              let moduleName := if 2 ≤ fields.length then some (stripQuotes (fields.getD 1 ""))
                else acc.2.1
              let methodsArray := if 5 ≤ fields.length then some (fields.getD 4 "")
                else acc.2.2
              (moduleName, methodsArray)
            else (acc.2.1, acc.2.2)
          | none => (acc.2.1, acc.2.2)
        (structName, rest.1, rest.2)
      else acc)
    (none, none, none)
  match res.1, res.2.1 with
  | some structName, some moduleName =>
    if structName = "" ∨ moduleName = "" then none
    else some { struct_name := structName, module_name := moduleName,
                methods_array := (res.2.2).getD "" }
  | _, _ => none

end RegistrationExtractor

/-! ## Hand-rolled matchers for the regular expressions used by the code

Each matcher implements one concrete pattern (leftmost `re.search` /
non-overlapping `re.findall` semantics); a matcher consumes the match and
returns the captured group plus the remaining characters. -/

namespace Rex

def isWordChar (c : Char) : Bool := c.isAlphanum || c == '_'

def dropSpaces (cs : List Char) : List Char := cs.dropWhile Char.isWhitespace

def litMatch (lit cs : List Char) : Option (List Char) :=
  if lit.isPrefixOf cs then some (cs.drop lit.length) else none

def expectChar (c : Char) : List Char → Option (List Char)
  | [] => none
  | d :: ds => if d == c then some ds else none

/-- Longest run of characters satisfying `p`; fails when empty. -/
def takeSome (p : Char → Bool) (cs : List Char) : Option (String × List Char) :=
  let w := cs.takeWhile p
  if w.isEmpty then none else some (String.mk w, cs.drop w.length)

/-- Possibly-empty run of characters satisfying `p`. -/
def takeMany (p : Char → Bool) (cs : List Char) : String × List Char :=
  (String.mk (cs.takeWhile p), cs.dropWhile p)

/-- `re.search`: try the matcher at each position, left to right. -/
def searchFirst (tryM : List Char → Option (α × List Char)) : List Char → Option (α × List Char)
  | [] => none
  | c :: cs =>
    match tryM (c :: cs) with
    | some r => some r
    | none => searchFirst tryM cs

/-- `re.findall`: collect non-overlapping matches left to right (the fuel is
instantiated with the input length; every match consumes at least one
character). -/
def findAllAux (tryM : List Char → Option (String × List Char)) :
    Nat → List Char → List String
  | 0, _ => []
  | _ + 1, [] => []
  | n + 1, c :: cs =>
    match tryM (c :: cs) with
    | some (w, rest) => w :: findAllAux tryM n rest
    | none => findAllAux tryM n cs

def findAll (tryM : List Char → Option (String × List Char)) (s : String) : List String :=
  findAllAux tryM s.toList.length s.toList

/-- Pattern `PyModule_Create\s*\(\s*&\s*(\w+)\s*\)`. -/
def tryPyModuleCreate (cs : List Char) : Option (String × List Char) := do
  let cs ← litMatch "PyModule_Create".toList cs
  let cs ← expectChar '(' (dropSpaces cs)
  let cs ← expectChar '&' (dropSpaces cs)
  let (w, cs) ← takeSome isWordChar (dropSpaces cs)
  let cs ← expectChar ')' (dropSpaces cs)
  return (w, cs)

/-- Pattern `,\s*(\w+)\s*\}`. -/
def tryCommaIdentBrace (cs : List Char) : Option (String × List Char) := do
  let cs ← expectChar ',' cs
  let (w, cs) ← takeSome isWordChar (dropSpaces cs)
  let cs ← expectChar '}' (dropSpaces cs)
  return (w, cs)

/-- Pattern `\{\s*"[^"]+"\s*,\s*(\w+)\s*,\s*METH_`. -/
def tryMethodEntryFunc (cs : List Char) : Option (String × List Char) := do
  let cs ← expectChar '{' cs
  let cs ← expectChar '"' (dropSpaces cs)
  let (_, cs) ← takeSome (fun c => c ≠ '"') cs
  let cs ← expectChar '"' cs
  let cs ← expectChar ',' (dropSpaces cs)
  let (w, cs) ← takeSome isWordChar (dropSpaces cs)
  let cs ← expectChar ',' (dropSpaces cs)
  let cs ← litMatch "METH_".toList (dropSpaces cs)
  return (w, cs)

/-- Pattern `PyObject_CallObject\s*\(\s*([^,]+)\s*,\s*([^)]+)\s*\)`; both
captures are consumed up to the closing delimiter (the caller strips
whitespace, matching the `\s*` boundaries of the original pattern). -/
def tryCallObject (cs : List Char) : Option ((String × String) × List Char) := do
  let cs ← litMatch "PyObject_CallObject".toList cs
  let cs ← expectChar '(' (dropSpaces cs)
  let (g1, cs) ← takeSome (fun c => c ≠ ',') cs
  let cs ← expectChar ',' cs
  let (g2, cs) ← takeSome (fun c => c ≠ ')') cs
  let cs ← expectChar ')' cs
  return ((g1, g2), cs)

/-- Pattern `VAR\s*=\s*PyDict_GetItemString\s*\([^,]+,\s*"([^"]+)"\s*\)`. -/
def tryVarAssignPyDict (varChars : List Char) (cs : List Char) :
    Option (String × List Char) := do
  let cs ← litMatch varChars cs
  let cs ← expectChar '=' (dropSpaces cs)
  let cs ← litMatch "PyDict_GetItemString".toList (dropSpaces cs)
  let cs ← expectChar '(' (dropSpaces cs)
  let (_, cs) ← takeSome (fun c => c ≠ ',') cs
  let cs ← expectChar ',' cs
  let cs ← expectChar '"' (dropSpaces cs)
  let (name, cs) ← takeSome (fun c => c ≠ '"') cs
  let cs ← expectChar '"' cs
  let cs ← expectChar ')' (dropSpaces cs)
  return (name, cs)

/-- Pattern `VAR\s*=\s*Py_BuildValue\s*\(\s*"[^"]*"\s*,\s*([^)]+)\s*\)`. -/
def tryVarAssignBuildValue (varChars : List Char) (cs : List Char) :
    Option (String × List Char) := do
  let cs ← litMatch varChars cs
  let cs ← expectChar '=' (dropSpaces cs)
  let cs ← litMatch "Py_BuildValue".toList (dropSpaces cs)
  let cs ← expectChar '(' (dropSpaces cs)
  let cs ← expectChar '"' (dropSpaces cs)
  let (_, cs) := takeMany (fun c => c ≠ '"') cs
  let cs ← expectChar '"' cs
  let cs ← expectChar ',' (dropSpaces cs)
  let (args, cs) ← takeSome (fun c => c ≠ ')') cs
  let cs ← expectChar ')' cs
  return (args, cs)

end Rex

/-! ## Registration chains (`src/C/py_module_extractor.py`, `_merge_results`) -/

namespace PyModuleExtractor

structure Item where
  name : String
  code : String
deriving DecidableEq

structure Chain where
  init_function : String
  module_def_info : Option Item
  method_def_info : Option Item
  c_functions : List Item
deriving DecidableEq

/-- `{item['name']: item for item in ...}`: the last item of a given name
wins. -/
def lookupItem (l : List Item) (n : String) : Option Item :=
  l.reverse.find? (fun it => it.name == n)

def searchPyModuleCreate (code : String) : Option String :=
  (Rex.searchFirst Rex.tryPyModuleCreate code.toList).map (·.1)

def findAllCommaIdentBrace (code : String) : List String :=
  Rex.findAll Rex.tryCommaIdentBrace code

def findAllMethodEntryFuncs (code : String) : List String :=
  Rex.findAll Rex.tryMethodEntryFunc code

/-- `CCodeParser._merge_results` chain construction: init function →
(`PyModule_Create(&X)` regex) module def → (last `,\s*(\w+)\s*\}` match)
method def → (method-entry regex, registry lookup) bound C functions.
Every failed link leaves the remaining fields at their defaults. -/
def mergeResults (methodDefs moduleDefs initFuncs cFunctions : List Item) : List Chain :=
  initFuncs.map (fun initFunc =>
    let base : Chain := ⟨initFunc.name, none, none, []⟩
    match (searchPyModuleCreate initFunc.code).bind (lookupItem moduleDefs) with
    | none => base
    | some moduleDef =>
      match ((findAllCommaIdentBrace moduleDef.code).getLast?).bind (lookupItem methodDefs) with
      | none => { base with module_def_info := some moduleDef }
      | some methodDef =>
        { init_function := initFunc.name,
          module_def_info := some moduleDef,
          method_def_info := some methodDef,
          c_functions := (findAllMethodEntryFuncs methodDef.code).filterMap
            (lookupItem cFunctions) })

end PyModuleExtractor

/-! ## Snippet-based call extractor (`src/C/python_call_extractor.py`) -/

namespace SnippetExtractor

structure RawSnippets where
  function_calls : List String
  function_lookup : List String
  argument_building : List String
deriving DecidableEq

def isPythonFunctionCall (callText : String) : Bool :=
  ["PyObject_CallObject", "PyObject_Call", "PyObject_CallFunction",
   "PyObject_CallMethod", "PyObject_CallFunctionObjArgs"].any
    (fun api => strContains callText api)

def isFunctionLookup (callText : String) : Bool :=
  ["PyDict_GetItemString", "PyObject_GetAttrString",
   "PyModule_GetDict", "PyImport_AddModule"].any
    (fun api => strContains callText api)

def isArgumentBuilding (callText : String) : Bool :=
  ["Py_BuildValue", "PyTuple_New", "PyTuple_SetItem",
   "PyList_New", "PyList_SetItem"].any
    (fun api => strContains callText api)

mutual

/-- Preorder traversal of the syntax tree (node before children). -/
def allNodes : CNode → List CNode
  | .node ty tx r f cs => CNode.node ty tx r f cs :: allNodesList cs

def allNodesList : List CNode → List CNode
  | [] => []
  | c :: cs => allNodes c ++ allNodesList cs

end

/-- `_extract_raw_code_snippets`: classify every `call_expression` node's
text into the three snippet buckets. -/
def extractRawCodeSnippets (root : CNode) : RawSnippets :=
  (allNodes root).foldl (fun s n =>
    if n.type == "call_expression" then
      let callText := n.text
      if isPythonFunctionCall callText then
        { s with function_calls := s.function_calls ++ [callText] }
      else if isFunctionLookup callText then
        { s with function_lookup := s.function_lookup ++ [callText] }
      else if isArgumentBuilding callText then
        { s with argument_building := s.argument_building ++ [callText] }
      else s
    else s) ⟨[], [], []⟩

/-- `_find_function_name`: probe the lookup snippets for a
`PyDict_GetItemString` assignment to the function variable, then fall back
to the whole source. -/
def findFunctionName (functionVar sourceCode : String) (raw : RawSnippets) : Option String :=
  match raw.function_lookup.findSome? (fun lk =>
      if strContains lk functionVar ∧ strContains lk "PyDict_GetItemString" then
        (Rex.searchFirst (Rex.tryVarAssignPyDict functionVar.toList) lk.toList).map (·.1)
      else none) with
  | some n => some n
  | none => (Rex.searchFirst (Rex.tryVarAssignPyDict functionVar.toList) sourceCode.toList).map (·.1)

/-- `_find_arguments`: probe the argument-building snippets for a
`Py_BuildValue` assignment, then fall back to the whole source; the captured
argument text is split on commas and stripped. -/
def findArguments (argsVar sourceCode : String) (raw : RawSnippets) : List String :=
  match raw.argument_building.findSome? (fun ab =>
      if strContains ab argsVar ∧ strContains ab "Py_BuildValue" then
        (Rex.searchFirst (Rex.tryVarAssignBuildValue argsVar.toList) ab.toList).map (·.1)
      else none) with
  | some argsStr => (splitOnChar ',' argsStr).map pyStrip
  | none =>
    match (Rex.searchFirst (Rex.tryVarAssignBuildValue argsVar.toList) sourceCode.toList).map (·.1) with
    | some argsStr => (splitOnChar ',' argsStr).map pyStrip
    | none => []

def buildPythonCallRepresentation (functionName : Option String) (arguments : List String) :
    Option String :=
  match functionName with
  | none => none
  | some f =>
    if arguments ≠ [] then some (f ++ "(" ++ joinWith ", " arguments ++ ")")
    else some (f ++ "()")

structure ParsedCall where
  call_type : String
  function_name : Option String
  arguments : List String
  python_call : Option String
  raw_code : String
deriving DecidableEq

/-- `_parse_pyobject_call`: match the `PyObject_CallObject(f, a)` pattern,
then resolve the function name and arguments heuristically; an entry is
produced whenever the pattern matches, even with unresolved fields. -/
def parsePyObjectCall (callText sourceCode : String) (raw : RawSnippets) : Option ParsedCall :=
  match Rex.searchFirst Rex.tryCallObject callText.toList with
  | none => none
  | some (g, _) =>
    let functionVar := pyStrip g.1
    let argsVar := pyStrip g.2
    let functionName := findFunctionName functionVar sourceCode raw
    let arguments := findArguments argsVar sourceCode raw
    some { call_type := "PyObject_CallObject",
           function_name := functionName,
           arguments := arguments,
           python_call := buildPythonCallRepresentation functionName arguments,
           raw_code := callText }

/-- One iteration of the `_parse_python_calls` loop: a snippet is handed to
`_parse_pyobject_call` only when its text contains `PyObject_CallObject`. -/
def parsePythonCallsStep (sourceCode : String) (raw : RawSnippets)
    (acc : List ParsedCall) (call : String) : List ParsedCall :=
  if strContains call "PyObject_CallObject" then
    match parsePyObjectCall call sourceCode raw with
    | some p => acc ++ [p]
    | none => acc
  else acc

/-- `_parse_python_calls`: only snippets whose text contains
`PyObject_CallObject` are handed to `_parse_pyobject_call`. -/
def parsePythonCalls (raw : RawSnippets) (sourceCode : String) : List ParsedCall :=
  raw.function_calls.foldl (parsePythonCallsStep sourceCode raw) []

/-- `extract_python_calls_from_ast`: raw snippets plus parsed calls. -/
def extractPythonCallsFromAst (root : CNode) (sourceCode : String) :
    RawSnippets × List ParsedCall :=
  let raw := extractRawCodeSnippets root
  (raw, parsePythonCalls raw sourceCode)

end SnippetExtractor

/-! ## Concrete instances used to evaluate the definitions -/

/-- A two-statement dependency graph for a typical foreign-call function. -/
def ddgEx : PyCallExtractor.DDG :=
  { nodes := [⟨0, 1, "PyObject *ret = PyObject_CallObject(fn, args);", "declaration"⟩,
              ⟨1, 2, "use(ret);", "expression_statement"⟩],
    defs := fun i => if i = 0 then {"ret"} else ∅,
    uses := fun i => if i = 0 then {"fn", "args"} else {"ret"} }

/-- A dependency graph with two statements on the same source line. -/
def ddgTwoPerLine : PyCallExtractor.DDG :=
  { nodes := [⟨0, 5, "x = a;", "expression_statement"⟩,
              ⟨1, 5, "y = b;", "expression_statement"⟩],
    defs := fun i => if i = 0 then {"x"} else {"y"},
    uses := fun i => if i = 0 then {"a"} else {"b"} }

/-- Native-side merger input: `c_add` registered under the name `add`. -/
def cAddGraphData : Merger.CGraphData :=
  { call_graph := [("c_add", [])],
    python_related_functions := ["c_add"],
    registered_c_functions := [("c_add", "add")] }

/-- Interpreter-side merger input: `main` calls the registered name `add`. -/
def mainPyGraphData : Merger.PyGraphData :=
  { call_graph := [("main", ["add"])], functions := ["main"] }

/-- Empty native-side merger input. -/
def emptyCGraphData : Merger.CGraphData :=
  { call_graph := [], python_related_functions := [], registered_c_functions := [] }

/-- Interpreter-side merger input with a module-qualified callee. -/
def dottedPyGraphData : Merger.PyGraphData :=
  { call_graph := [("main", ["os.path"])], functions := ["main"] }

/-- Method-table entry `{"foo", c_foo, METH_VARARGS, "doc"}`. -/
def fooEntryNode : CNode :=
  .node "initializer_list" "\x7b\"foo\", c_foo, METH_VARARGS, \"doc\"\x7d" 1 none
    [.node "\x7b" "\x7b" 1 none [],
     .node "string_literal" "\"foo\"" 1 none [],
     .node "," "," 1 none [],
     .node "identifier" "c_foo" 1 none [],
     .node "," "," 1 none [],
     .node "identifier" "METH_VARARGS" 1 none [],
     .node "," "," 1 none [],
     .node "string_literal" "\"doc\"" 1 none [],
     .node "\x7d" "\x7d" 1 none []]

/-- Sentinel entry `{NULL, NULL, 0, NULL}`. -/
def nullEntryNode : CNode :=
  .node "initializer_list" "\x7bNULL, NULL, 0, NULL\x7d" 2 none
    [.node "identifier" "NULL" 2 none [],
     .node "identifier" "NULL" 2 none [],
     .node "number_literal" "0" 2 none [],
     .node "identifier" "NULL" 2 none []]

/-- An entry whose python name merely contains the text `NULL`. -/
def nullifyEntryNode : CNode :=
  .node "initializer_list" "\x7b\"NULLIFY\", c_nullify, METH_VARARGS, \"doc\"\x7d" 3 none
    [.node "string_literal" "\"NULLIFY\"" 3 none [],
     .node "identifier" "c_nullify" 3 none [],
     .node "identifier" "METH_VARARGS" 3 none [],
     .node "string_literal" "\"doc\"" 3 none []]

/-- Array initializer of the synthetic method table. -/
def fooTableInitializer : CNode :=
  .node "initializer_list"
    "\x7b\x7b\"foo\", c_foo, METH_VARARGS, \"doc\"\x7d, \x7bNULL, NULL, 0, NULL\x7d\x7d" 1 none
    [fooEntryNode, nullEntryNode]

/-- Initializer of a canonical 5-field `PyModuleDef` descriptor; the size
field `-1` is a `unary_expression` node. -/
def fooModuleInitializerNode : CNode :=
  .node "initializer_list"
    "\x7bPyModuleDef_HEAD_INIT, \"foo\", NULL, -1, FooMethods\x7d" 10 (some "value")
    [.node "identifier" "PyModuleDef_HEAD_INIT" 10 none [],
     .node "string_literal" "\"foo\"" 10 none [],
     .node "identifier" "NULL" 10 none [],
     .node "unary_expression" "-1" 10 none [],
     .node "identifier" "FooMethods" 10 none []]

/-- Declaration of the canonical module descriptor. -/
def fooModuleDeclNode : CNode :=
  .node "declaration"
    "static struct PyModuleDef foomodule = \x7bPyModuleDef_HEAD_INIT, \"foo\", NULL, -1, FooMethods\x7d;"
    10 none
    [.node "storage_class_specifier" "static" 10 none [],
     .node "struct_specifier" "struct PyModuleDef" 10 (some "type") [],
     .node "init_declarator"
       "foomodule = \x7bPyModuleDef_HEAD_INIT, \"foo\", NULL, -1, FooMethods\x7d" 10
       (some "declarator")
       [.node "identifier" "foomodule" 10 (some "declarator") [],
        .node "=" "=" 10 none [],
        fooModuleInitializerNode]]

/-- Synthetic method table source, as stored by `_extract_py_method_defs`. -/
def fooMethodsItem : PyModuleExtractor.Item :=
  { name := "FooMethods",
    code := "static PyMethodDef FooMethods[] = \x7b\n    \x7b\"foo\", c_foo, METH_VARARGS, \"doc\"\x7d,\n    \x7bNULL, NULL, 0, NULL\x7d\n\x7d;" }

/-- Matching module descriptor source. -/
def fooModuleItem : PyModuleExtractor.Item :=
  { name := "foomodule",
    code := "static struct PyModuleDef foomodule = \x7b\n    PyModuleDef_HEAD_INIT, \"foo\", NULL, -1, FooMethods\n\x7d;" }

/-- Matching init-function source. -/
def fooInitItem : PyModuleExtractor.Item :=
  { name := "PyInit_foo",
    code := "PyMODINIT_FUNC PyInit_foo(void) \x7b\n    return PyModule_Create(&foomodule);\n\x7d" }

/-- The bound native function. -/
def cFooItem : PyModuleExtractor.Item :=
  { name := "c_foo",
    code := "static PyObject *c_foo(PyObject *self, PyObject *args) \x7b\n    return NULL;\n\x7d" }

/-- A trivial stand-in for the external parsing service. -/
def trivialParse : String → CNode := fun s => .node "translation_unit" s 0 none []

/-- A `PyObject_Call` call site whose first argument is itself a
`PyObject_CallObject` call. -/
def nestedCallNode : CNode :=
  .node "call_expression" "PyObject_Call(PyObject_CallObject(f, a), b, c)" 3 none
    [.node "identifier" "PyObject_Call" 3 (some "function") [],
     .node "argument_list" "(PyObject_CallObject(f, a), b, c)" 3 (some "arguments")
       [.node "call_expression" "PyObject_CallObject(f, a)" 3 none
         [.node "identifier" "PyObject_CallObject" 3 (some "function") [],
          .node "argument_list" "(f, a)" 3 (some "arguments") []],
        .node "identifier" "b" 3 none [],
        .node "identifier" "c" 3 none []]]

/-! ## Lemmas about the DependencyTracker fixed-point loop -/

namespace PyCallExtractor

lemma runLoop_succ (ddg : DDG) (n : Nat) (st : TrackState) :
    runLoop ddg (n + 1) st =
      if (onePass ddg st).tracked = st.tracked then onePass ddg st
      else runLoop ddg n (onePass ddg st) := rfl

lemma tracked_subset_onePassStep (ddg : DDG) (st : TrackState) (nd : DDGNode) :
    st.tracked ⊆ (onePassStep ddg st nd).tracked := by
  unfold onePassStep
  split_ifs
  · exact Finset.Subset.refl _
  · exact Finset.subset_union_left
  · exact Finset.Subset.refl _

lemma added_subset_onePassStep (ddg : DDG) (st : TrackState) (nd : DDGNode) :
    st.added ⊆ (onePassStep ddg st nd).added := by
  unfold onePassStep
  split_ifs
  · exact Finset.Subset.refl _
  · exact Finset.subset_insert _ _
  · exact Finset.Subset.refl _

lemma onePassStep_tracked_bound (ddg : DDG) (st : TrackState) (nd : DDGNode) :
    (onePassStep ddg st nd).tracked ⊆ st.tracked ∪ (ddg.defs nd.id ∪ ddg.uses nd.id) := by
  unfold onePassStep
  split_ifs
  · exact Finset.subset_union_left
  · exact Finset.Subset.refl _
  · exact Finset.subset_union_left

lemma onePassStep_added_bound (ddg : DDG) (st : TrackState) (nd : DDGNode) :
    (onePassStep ddg st nd).added ⊆ insert nd.line st.added := by
  unfold onePassStep
  split_ifs
  · exact Finset.subset_insert _ _
  · exact Finset.Subset.refl _
  · exact Finset.subset_insert _ _

lemma onePassStep_eq_of_added_eq (ddg : DDG) (st : TrackState) (nd : DDGNode)
    (h : (onePassStep ddg st nd).added = st.added) : onePassStep ddg st nd = st := by
  revert h
  unfold onePassStep
  split_ifs with h1 h2
  · intro _; rfl
  · intro heq
    exact absurd (heq ▸ Finset.mem_insert_self nd.line st.added) h1
  · intro _; rfl

lemma onePassStep_skip (ddg : DDG) (st : TrackState) (nd : DDGNode)
    (h : nd.line ∈ st.added) : onePassStep ddg st nd = st := by
  unfold onePassStep
  rw [if_pos h]

lemma tracked_subset_foldlSteps (ddg : DDG) (l : List DDGNode) :
    ∀ st : TrackState, st.tracked ⊆ (l.foldl (onePassStep ddg) st).tracked := by
  induction l with
  | nil => intro st; exact Finset.Subset.refl _
  | cons nd l ih =>
    intro st
    exact (tracked_subset_onePassStep ddg st nd).trans (ih _)

lemma added_subset_foldlSteps (ddg : DDG) (l : List DDGNode) :
    ∀ st : TrackState, st.added ⊆ (l.foldl (onePassStep ddg) st).added := by
  induction l with
  | nil => intro st; exact Finset.Subset.refl _
  | cons nd l ih =>
    intro st
    exact (added_subset_onePassStep ddg st nd).trans (ih _)

lemma foldlSteps_tracked_bound (ddg : DDG) (U : Finset String) (l : List DDGNode)
    (hl : ∀ nd ∈ l, ddg.defs nd.id ∪ ddg.uses nd.id ⊆ U) :
    ∀ st : TrackState, st.tracked ⊆ U → (l.foldl (onePassStep ddg) st).tracked ⊆ U := by
  induction l with
  | nil => intro st h; exact h
  | cons nd l ih =>
    intro st h
    refine ih (fun nd' h' => hl nd' (List.mem_cons_of_mem _ h')) _ ?_
    exact (onePassStep_tracked_bound ddg st nd).trans
      (Finset.union_subset h (hl nd (List.mem_cons_self _ _)))

lemma foldlSteps_added_bound (ddg : DDG) (A : Finset Nat) (l : List DDGNode)
    (hl : ∀ nd ∈ l, nd.line ∈ A) :
    ∀ st : TrackState, st.added ⊆ A → (l.foldl (onePassStep ddg) st).added ⊆ A := by
  induction l with
  | nil => intro st h; exact h
  | cons nd l ih =>
    intro st h
    refine ih (fun nd' h' => hl nd' (List.mem_cons_of_mem _ h')) _ ?_
    exact (onePassStep_added_bound ddg st nd).trans
      (Finset.insert_subset (hl nd (List.mem_cons_self _ _)) h)

lemma foldlSteps_eq_of_added_eq (ddg : DDG) (l : List DDGNode) :
    ∀ st : TrackState, (l.foldl (onePassStep ddg) st).added = st.added →
      l.foldl (onePassStep ddg) st = st := by
  induction l with
  | nil => intro st _; rfl
  | cons nd l ih =>
    intro st h
    rw [List.foldl_cons] at h ⊢
    have h1 : st.added ⊆ (onePassStep ddg st nd).added := added_subset_onePassStep ddg st nd
    have h2 : (onePassStep ddg st nd).added ⊆ (l.foldl (onePassStep ddg) (onePassStep ddg st nd)).added :=
      added_subset_foldlSteps ddg l _
    have hA : (onePassStep ddg st nd).added = st.added :=
      Finset.Subset.antisymm (h ▸ h2) h1
    have hst : onePassStep ddg st nd = st := onePassStep_eq_of_added_eq ddg st nd hA
    rw [hst] at h ⊢
    exact ih st h

lemma foldlSteps_skip (ddg : DDG) (l : List DDGNode) :
    ∀ st : TrackState, (∀ nd ∈ l, nd.line ∈ st.added) → l.foldl (onePassStep ddg) st = st := by
  induction l with
  | nil => intro st _; rfl
  | cons nd l ih =>
    intro st h
    rw [List.foldl_cons, onePassStep_skip ddg st nd (h nd (List.mem_cons_self _ _))]
    exact ih st (fun nd' h' => h nd' (List.mem_cons_of_mem _ h'))

lemma acc_subset_foldl_union (ddg : DDG) (l : List DDGNode) :
    ∀ acc : Finset String,
      acc ⊆ l.foldl (fun acc nd => acc ∪ (ddg.defs nd.id ∪ ddg.uses nd.id)) acc := by
  induction l with
  | nil => intro acc; exact Finset.Subset.refl _
  | cons nd l ih =>
    intro acc
    exact Finset.subset_union_left.trans (ih _)

lemma vars_subset_foldl_union (ddg : DDG) (l : List DDGNode) (nd : DDGNode) (hmem : nd ∈ l) :
    ∀ acc : Finset String,
      ddg.defs nd.id ∪ ddg.uses nd.id ⊆
        l.foldl (fun acc nd => acc ∪ (ddg.defs nd.id ∪ ddg.uses nd.id)) acc := by
  induction l with
  | nil => cases hmem
  | cons hd l ih =>
    intro acc
    rcases List.mem_cons.mp hmem with h | h
    · subst h
      exact Finset.subset_union_right.trans (acc_subset_foldl_union ddg l _)
    · exact ih h _

lemma vars_subset_varUniverse (ddg : DDG) (nd : DDGNode) (h : nd ∈ ddg.nodes) :
    ddg.defs nd.id ∪ ddg.uses nd.id ⊆ varUniverse ddg :=
  vars_subset_foldl_union ddg ddg.nodes nd h ∅

lemma line_mem_lineSet (ddg : DDG) (nd : DDGNode) (h : nd ∈ ddg.nodes) :
    nd.line ∈ lineSet ddg := by
  simp only [lineSet, List.mem_toFinset, List.mem_map]
  exact ⟨nd, h, rfl⟩

lemma tracked_subset_onePass (ddg : DDG) (st : TrackState) :
    st.tracked ⊆ (onePass ddg st).tracked :=
  tracked_subset_foldlSteps ddg ddg.nodes st

lemma added_subset_onePass (ddg : DDG) (st : TrackState) :
    st.added ⊆ (onePass ddg st).added :=
  added_subset_foldlSteps ddg ddg.nodes st

lemma onePass_tracked_bound (ddg : DDG) (st : TrackState)
    (h : st.tracked ⊆ varUniverse ddg) : (onePass ddg st).tracked ⊆ varUniverse ddg :=
  foldlSteps_tracked_bound ddg (varUniverse ddg) ddg.nodes
    (fun nd hnd => vars_subset_varUniverse ddg nd hnd) st h

lemma onePass_added_bound (ddg : DDG) (st : TrackState) :
    (onePass ddg st).added ⊆ st.added ∪ lineSet ddg :=
  foldlSteps_added_bound ddg (st.added ∪ lineSet ddg) ddg.nodes
    (fun nd hnd => Finset.mem_union_right _ (line_mem_lineSet ddg nd hnd)) st
    Finset.subset_union_left

lemma onePass_eq_of_added_eq (ddg : DDG) (st : TrackState)
    (h : (onePass ddg st).added = st.added) : onePass ddg st = st :=
  foldlSteps_eq_of_added_eq ddg ddg.nodes st h

lemma onePass_skip (ddg : DDG) (st : TrackState)
    (h : ∀ nd ∈ ddg.nodes, nd.line ∈ st.added) : onePass ddg st = st :=
  foldlSteps_skip ddg ddg.nodes st h

lemma runLoop_tracked_bound (ddg : DDG) (n : Nat) :
    ∀ st : TrackState, st.tracked ⊆ varUniverse ddg →
      (runLoop ddg n st).tracked ⊆ varUniverse ddg := by
  induction n with
  | zero => intro st h; exact h
  | succ n ih =>
    intro st h
    rw [runLoop_succ]
    split_ifs
    · exact onePass_tracked_bound ddg st h
    · exact ih _ (onePass_tracked_bound ddg st h)

lemma runLoop_stable (ddg : DDG) :
    ∀ n : Nat, ∀ st : TrackState, ∀ k : Nat,
      (lineSet ddg \ st.added).card ≤ n →
      runLoop ddg (n + 1) st = runLoop ddg (n + 1 + k) st := by
  intro n
  induction n with
  | zero =>
    intro st k h
    have hcard : (lineSet ddg \ st.added).card = 0 := Nat.le_zero.mp h
    have hsub : lineSet ddg ⊆ st.added := by
      rw [Finset.card_eq_zero, Finset.sdiff_eq_empty_iff_subset] at hcard
      exact hcard
    have hpass : onePass ddg st = st :=
      onePass_skip ddg st (fun nd hnd => hsub (line_mem_lineSet ddg nd hnd))
    have e : 0 + 1 + k = k + 1 := by omega
    rw [e, runLoop_succ ddg 0 st, runLoop_succ ddg k st, hpass, if_pos rfl, if_pos rfl]
  | succ n ih =>
    intro st k h
    by_cases hc : (onePass ddg st).tracked = st.tracked
    · have e : n + 1 + 1 + k = (n + 1 + k) + 1 := by omega
      rw [e, runLoop_succ ddg (n + 1) st, runLoop_succ ddg (n + 1 + k) st, if_pos hc, if_pos hc]
    · have e : n + 1 + 1 + k = (n + 1 + k) + 1 := by omega
      rw [e, runLoop_succ ddg (n + 1) st, runLoop_succ ddg (n + 1 + k) st, if_neg hc, if_neg hc]
      apply ih
      have hadded_ne : (onePass ddg st).added ≠ st.added := fun hEq =>
        hc (congrArg TrackState.tracked (onePass_eq_of_added_eq ddg st hEq))
      have hmono : st.added ⊆ (onePass ddg st).added := added_subset_onePass ddg st
      have hssub : st.added ⊂ (onePass ddg st).added :=
        HasSubset.Subset.ssubset_of_ne hmono (Ne.symm hadded_ne)
      obtain ⟨x, hx_in, hx_not⟩ := Finset.exists_of_ssubset hssub
      have hx_line : x ∈ lineSet ddg := by
        rcases Finset.mem_union.mp (onePass_added_bound ddg st hx_in) with hx | hx
        · exact absurd hx hx_not
        · exact hx
      have hstrict : lineSet ddg \ (onePass ddg st).added ⊂ lineSet ddg \ st.added := by
        refine Finset.ssubset_iff_of_subset
          (Finset.sdiff_subset_sdiff (Finset.Subset.refl _) hmono) |>.mpr ?_
        exact ⟨x, Finset.mem_sdiff.mpr ⟨hx_line, hx_not⟩,
          fun hx' => (Finset.mem_sdiff.mp hx').2 hx_in⟩
      have := Finset.card_lt_card hstrict
      omega

lemma ctx_inv_onePassStep (ddg : DDG) (st : TrackState) (nd : DDGNode)
    (h1 : (st.context.map (fun c => c.line)).Nodup)
    (h2 : ∀ c ∈ st.context, c.line ∈ st.added) :
    ((onePassStep ddg st nd).context.map (fun c => c.line)).Nodup ∧
      ∀ c ∈ (onePassStep ddg st nd).context, c.line ∈ (onePassStep ddg st nd).added := by
  unfold onePassStep
  split_ifs with hmem hne
  · exact ⟨h1, h2⟩
  · constructor
    · rw [List.map_append, List.nodup_append]
      refine ⟨h1, List.nodup_singleton _, ?_⟩
      intro a ha hb
      rcases List.mem_map.mp ha with ⟨c, hc, hline⟩
      simp only [List.map_cons, List.map_nil, List.mem_singleton] at hb
      exact hmem (hb ▸ hline ▸ h2 c hc)
    · intro c hc
      rcases List.mem_append.mp hc with hc | hc
      · exact Finset.mem_insert_of_mem (h2 c hc)
      · simp only [List.mem_singleton] at hc
        subst hc
        exact Finset.mem_insert_self _ _
  · exact ⟨h1, h2⟩

lemma ctx_inv_foldlSteps (ddg : DDG) (l : List DDGNode) :
    ∀ st : TrackState,
      (st.context.map (fun c => c.line)).Nodup →
      (∀ c ∈ st.context, c.line ∈ st.added) →
      ((l.foldl (onePassStep ddg) st).context.map (fun c => c.line)).Nodup ∧
        ∀ c ∈ (l.foldl (onePassStep ddg) st).context,
          c.line ∈ (l.foldl (onePassStep ddg) st).added := by
  induction l with
  | nil => intro st h1 h2; exact ⟨h1, h2⟩
  | cons nd l ih =>
    intro st h1 h2
    obtain ⟨h1', h2'⟩ := ctx_inv_onePassStep ddg st nd h1 h2
    exact ih _ h1' h2'

lemma ctx_inv_runLoop (ddg : DDG) (n : Nat) :
    ∀ st : TrackState,
      (st.context.map (fun c => c.line)).Nodup →
      (∀ c ∈ st.context, c.line ∈ st.added) →
      ((runLoop ddg n st).context.map (fun c => c.line)).Nodup ∧
        ∀ c ∈ (runLoop ddg n st).context, c.line ∈ (runLoop ddg n st).added := by
  induction n with
  | zero => intro st h1 h2; exact ⟨h1, h2⟩
  | succ n ih =>
    intro st h1 h2
    rw [runLoop_succ]
    obtain ⟨h1', h2'⟩ := ctx_inv_foldlSteps ddg ddg.nodes st h1 h2
    split_ifs
    · exact ⟨h1', h2'⟩
    · exact ih _ h1' h2'

lemma insertByLine_perm (c : CtxStmt) (l : List CtxStmt) :
    List.Perm (insertByLine c l) (c :: l) := by
  induction l with
  | nil => rfl
  | cons d ds ih =>
    unfold insertByLine
    split_ifs
    · exact (ih.cons d).trans (List.Perm.swap c d ds)
    · rfl

lemma sortByLine_foldl_perm (l : List CtxStmt) :
    ∀ acc : List CtxStmt,
      List.Perm (l.foldl (fun acc c => insertByLine c acc) acc) (acc ++ l) := by
  induction l with
  | nil => intro acc; simp
  | cons c cs ih =>
    intro acc
    have h1 : List.Perm (cs.foldl (fun acc c => insertByLine c acc) (insertByLine c acc))
        (insertByLine c acc ++ cs) := ih _
    have h2 : List.Perm (insertByLine c acc ++ cs) ((c :: acc) ++ cs) :=
      (insertByLine_perm c acc).append_right cs
    have h3 : List.Perm ((c :: acc) ++ cs) (acc ++ c :: cs) := List.perm_middle.symm
    exact (h1.trans h2).trans h3

lemma sortByLine_perm (l : List CtxStmt) : List.Perm (sortByLine l) l := by
  have := sortByLine_foldl_perm l []
  simpa [sortByLine] using this

/-- C1: for every dependency graph and every seed variable set drawn from
the function's variables, the fixed-point expansion loop of
`_extract_related_statements` terminates (a sweep budget of `#statements + 1`
already reaches the final state, and any extra budget leaves the result
unchanged), the tracked-variable set grows monotonically with every sweep
and stays inside the function's finite def/use variable universe, and each
statement line contributes at most one expansion event (no line is collected
twice). -/
theorem tracker_fixed_point_monotone_bounded (ddg : DDG) (V0 : Finset String)
    (hV0 : V0 ⊆ varUniverse ddg) :
    (∀ k, runLoop ddg (ddg.nodes.length + 1) (initState V0) =
        runLoop ddg (ddg.nodes.length + 1 + k) (initState V0)) ∧
    (∀ st : TrackState, st.tracked ⊆ (onePass ddg st).tracked) ∧
    (∀ n, (runLoop ddg n (initState V0)).tracked ⊆ varUniverse ddg) ∧
    ((extractRelatedStatements ddg V0).map (fun c => c.line)).Nodup := by
  refine ⟨?_, fun st => tracked_subset_onePass ddg st, ?_, ?_⟩
  · intro k
    apply runLoop_stable
    have h1 : (lineSet ddg \ (initState V0).added).card = (lineSet ddg).card := by
      simp [initState]
    have h2 : (lineSet ddg).card ≤ (ddg.nodes.map (·.line)).length :=
      List.toFinset_card_le _
    rw [h1]
    simpa using h2
  · intro n
    exact runLoop_tracked_bound ddg n _ (by simpa [initState] using hV0)
  · have hinv := ctx_inv_runLoop ddg (ddg.nodes.length + 1) (initState V0)
      (by simp [initState]) (by simp [initState])
    have hperm := sortByLine_perm (runLoop ddg (ddg.nodes.length + 1) (initState V0)).context
    exact ((hperm.map (fun c => c.line)).symm).nodup hinv.1

/-- Witness for C1 at a concrete two-statement dependency graph with seed
`{fn}`. -/
theorem tracker_fixed_point_witness :
    ({"fn"} : Finset String) ⊆ varUniverse ddgEx ∧
      ((extractRelatedStatements ddgEx {"fn"}).map (fun c => c.line)).Nodup :=
  ⟨by decide, (tracker_fixed_point_monotone_bounded ddgEx {"fn"} (by decide)).2.2.2⟩

/-- C2 counterexample: with two statements on the call line, the seed is the
def/use set of the first one only, not the union over all statements at that
line. -/
theorem seed_not_union_over_line :
    seedVars ddgTwoPerLine 5 ≠ seedVarsSpec ddgTwoPerLine 5 ∧
      seedVars ddgTwoPerLine 5 = ({"x", "a"} : Finset String) ∧
      seedVarsSpec ddgTwoPerLine 5 = ({"x", "a", "y", "b"} : Finset String) := by
  refine ⟨?_, by decide, by decide⟩
  decide

/-- C2 (amended): the seed set equals the def/use union of the first
dependency-graph statement on the call line (empty when there is none);
when at most one statement lies on that line this coincides with the union
over all statements at that line. -/
theorem seedVars_eq_spec_of_unique_line (ddg : DDG) (callLine : Nat)
    (h : (ddg.nodes.filter (fun nd => nd.line == callLine)).length ≤ 1) :
    seedVars ddg callLine = seedVarsSpec ddg callLine := by
  cases hf : ddg.nodes.find? (fun nd => nd.line == callLine) with
  | none =>
    have hall := List.find?_eq_none.mp hf
    have hfil : ddg.nodes.filter (fun nd => nd.line == callLine) = [] := by
      rw [List.filter_eq_nil_iff]
      exact hall
    simp [seedVars, hf, seedVarsSpec, hfil]
  | some nd =>
    have hp := List.find?_some hf
    have hmem : nd ∈ ddg.nodes := List.mem_of_find?_eq_some hf
    have hmemf : nd ∈ ddg.nodes.filter (fun nd => nd.line == callLine) :=
      List.mem_filter.mpr ⟨hmem, hp⟩
    have hfil : ddg.nodes.filter (fun nd => nd.line == callLine) = [nd] := by
      rcases hcases : ddg.nodes.filter (fun nd => nd.line == callLine) with _ | ⟨x, rest⟩
      · rw [hcases] at hmemf
        simp at hmemf
      · rcases rest with _ | ⟨y, rest⟩
        · rw [hcases] at hmemf
          have hx : nd = x := by simpa using hmemf
          rw [hx]
          exact hcases
        · rw [hcases] at h
          simp at h
    simp [seedVars, hf, seedVarsSpec, hfil]

/-- Witness for the amended C2 at a dependency graph with a unique statement
on the call line. -/
theorem seedVars_eq_spec_witness :
    ((ddgEx.nodes.filter (fun nd => nd.line == 1)).length ≤ 1) ∧
      seedVars ddgEx 1 = seedVarsSpec ddgEx 1 :=
  ⟨by decide, seedVars_eq_spec_of_unique_line ddgEx 1 (by decide)⟩

end PyCallExtractor

namespace Merger

/-- C3: merging `c_add` (registered as `add`) with an interpreter graph
holding the edge `main → add` collapses native and registered names into the
single node `c_add(add)` — the merged graph has exactly the nodes
`c_add(add)` and `main`, never separate `c_add`/`add` nodes — and the edge
`main → c_add(add)` is classified as an interpreter-to-native
(python-to-C) cross-language call. -/
theorem merge_unifies_registered_function :
    (mergePythonCCallGraph cAddGraphData mainPyGraphData).merged_call_graph =
        [("c_add(add)", []), ("main", ["c_add(add)"])] ∧
      (mergePythonCCallGraph cAddGraphData mainPyGraphData).node_types =
        [("c_add(add)", "registered_c_function"), ("main", "python_function")] ∧
      (mergePythonCCallGraph cAddGraphData mainPyGraphData).python_to_c_calls =
        [("main", "c_add(add)")] ∧
      (mergePythonCCallGraph cAddGraphData mainPyGraphData).c_to_python_calls = [] := by
  refine ⟨?_, ?_, ?_, ?_⟩ <;> decide

/-- C4 counterexample: a module-qualified callee whose trailing component is
not a registered name keeps the full dotted name as the merged edge target;
the edge does not point at a `path` node. -/
theorem dotted_callee_keeps_full_name :
    lookupG (mergePythonCCallGraph emptyCGraphData dottedPyGraphData).merged_call_graph
        "main" = some ["os.path"] ∧
      hasKeyG (mergePythonCCallGraph emptyCGraphData dottedPyGraphData).merged_call_graph
        "path" = false := by
  refine ⟨?_, ?_⟩ <;> decide

/-- C4 (amended): for a qualified callee the trailing component is used only
to probe the registered-name map: when it is registered the edge targets the
canonical unified id, otherwise the edge keeps the full dotted name. -/
theorem resolvePyCallee_dotted (pyToC unified : List (String × String)) (callee : String)
    (hdot : strContainsChar callee '.' = true) (hnotreg : dictHas pyToC callee = false) :
    resolvePyCallee pyToC unified callee =
      if dictHas pyToC ((splitOnChar '.' callee).getLastD "") then
        dictGet unified ((splitOnChar '.' callee).getLastD "") ((splitOnChar '.' callee).getLastD "")
      else callee := by
  simp [resolvePyCallee, hdot, hnotreg]

/-- Witness for the amended C4: the dotted callee `os.path` with empty
registration maps resolves to itself. -/
theorem resolvePyCallee_dotted_witness :
    (strContainsChar "os.path" '.' = true) ∧ (dictHas [] "os.path" = false) ∧
      resolvePyCallee [] [] "os.path" = "os.path" :=
  ⟨by decide, by decide,
    (resolvePyCallee_dotted [] [] "os.path" (by decide) (by decide)).trans (by decide)⟩

end Merger

namespace RegistrationExtractor

/-- C5 counterexample: the entry `{"NULLIFY", c_nullify, METH_VARARGS, "doc"}`
is dropped by the method-entry parser although its first field does not
textually equal the `NULL` sentinel — the filter tests substring containment,
not equality. -/
theorem nullify_entry_dropped :
    parseSingleMethodEntry nullifyEntryNode = none ∧
      (entryElements nullifyEntryNode).headD "" = "\"NULLIFY\"" ∧
      ("\"NULLIFY\"" : String) ≠ "NULL" :=
  ⟨by decide, by decide, by decide⟩

/-- C5 (amended): an entry is dropped exactly when it has fewer than two
collected fields or its first field contains the text `NULL` as a substring;
every kept entry maps its python name (quotes stripped) to its C function.
On the synthetic table `{{"foo", c_foo, METH_VARARGS, "doc"}, {NULL, NULL, 0,
NULL}}` with matching module descriptor and init function this yields exactly
the entry `foo → c_foo` and exactly one registration chain binding `c_foo`,
the NULL sentinel excluded. -/
theorem method_entry_filter_and_roundtrip :
    (∀ entryNode : CNode,
        parseSingleMethodEntry entryNode = none ↔
          ((entryElements entryNode).length < 2 ∨
            strContains ((entryElements entryNode).headD "") "NULL" = true)) ∧
      parseMethodEntries fooTableInitializer =
        [{ python_name := "foo", c_function := "c_foo",
           flags := "METH_VARARGS", doc := "doc" }] ∧
      PyModuleExtractor.mergeResults [fooMethodsItem] [fooModuleItem] [fooInitItem] [cFooItem] =
        [{ init_function := "PyInit_foo", module_def_info := some fooModuleItem,
           method_def_info := some fooMethodsItem, c_functions := [cFooItem] }] := by
  refine ⟨?_, by decide, by decide⟩
  intro entryNode
  simp only [parseSingleMethodEntry]
  split_ifs with h
  · constructor
    · intro hc
      simp at hc
    · intro hor
      rcases hor with hlt | hcon
      · omega
      · exact absurd hcon h.2
  · constructor
    · intro _
      by_cases hlen : 2 ≤ (entryElements entryNode).length
      · right
        by_cases hcon : strContains ((entryElements entryNode).headD "") "NULL" = true
        · exact hcon
        · exact absurd ⟨hlen, hcon⟩ h
      · left
        omega
    · intro _
      rfl

/-- C6: on the canonical 5-field module-descriptor layout
`{PyModuleDef_HEAD_INIT, "foo", NULL, -1, FooMethods}` the parser collects
only four fields — the numeric size field `-1` (a `unary_expression` node) is
not among the collected node kinds — so the module name is read correctly
from initializer field 2 but the methods-array reference (initializer field
5) is lost and comes back empty, contradicting the code's own comment and
the spec. -/
theorem canonical_moduledef_misses_methods_ref :
    moduleDefFields fooModuleInitializerNode =
        ["PyModuleDef_HEAD_INIT", "\"foo\"", "NULL", "FooMethods"] ∧
      parsePyModuleDefStruct fooModuleDeclNode =
        some { struct_name := "foomodule", module_name := "foo", methods_array := "" } :=
  ⟨by decide, by decide⟩

end RegistrationExtractor

namespace CParser

lemma appendUnique_map_fst (g : Graph) (k v : String) :
    (appendUnique g k v).map (·.1) = g.map (·.1) := by
  induction g with
  | nil => rfl
  | cons p g ih =>
    simp only [appendUnique, List.map_cons] at ih ⊢
    split_ifs <;> simp_all

lemma appendUnique_values_nodup (g : Graph) (k v : String)
    (h : ∀ p ∈ g, p.2.Nodup) : ∀ p ∈ appendUnique g k v, p.2.Nodup := by
  intro q hq
  rcases List.mem_map.mp hq with ⟨p, hp, rfl⟩
  by_cases hk : (p.1 == k) = true
  · simp only [hk, if_true]
    by_cases hv : v ∈ p.2
    · simpa [hv] using h p hp
    · simp only [hv, if_false]
      rw [List.nodup_append]
      refine ⟨h p hp, List.nodup_singleton _, ?_⟩
      intro a ha hb
      simp only [List.mem_singleton] at hb
      exact hv (hb ▸ ha)
  · simpa [hk] using h p hp

lemma ensureKey_wf (g : Graph) (k : String)
    (h1 : (g.map (·.1)).Nodup) (h2 : ∀ p ∈ g, p.2.Nodup) :
    ((ensureKey g k).map (·.1)).Nodup ∧ ∀ p ∈ ensureKey g k, p.2.Nodup := by
  unfold ensureKey
  split_ifs with h
  · exact ⟨h1, h2⟩
  · have hnone : g.find? (fun p => p.1 == k) = none := by
      rw [← Option.not_isSome_iff_eq_none]
      simpa [hasKeyG] using h
    have hfst : ∀ p ∈ g, ¬((p.1 == k) = true) := List.find?_eq_none.mp hnone
    constructor
    · rw [List.map_append, List.nodup_append]
      refine ⟨h1, by simp, ?_⟩
      intro a ha hb
      simp only [List.map_cons, List.map_nil, List.mem_singleton] at hb
      rcases List.mem_map.mp ha with ⟨p, hp, rfl⟩
      exact hfst p hp (by simp [hb])
    · intro p hp
      rcases List.mem_append.mp hp with hp | hp
      · exact h2 p hp
      · simp only [List.mem_singleton] at hp
        subst hp
        exact List.nodup_nil

lemma foldl_ensureKey_wf (fs : List String) :
    ∀ g : Graph, (g.map (·.1)).Nodup → (∀ p ∈ g, p.2.Nodup) →
      ((fs.foldl ensureKey g).map (·.1)).Nodup ∧ ∀ p ∈ fs.foldl ensureKey g, p.2.Nodup := by
  induction fs with
  | nil => intro g h1 h2; exact ⟨h1, h2⟩
  | cons f fs ih =>
    intro g h1 h2
    obtain ⟨h1', h2'⟩ := ensureKey_wf g f h1 h2
    exact ih _ h1' h2'

lemma foldl_addEdges_wf (cs : List (String × String)) :
    ∀ g : Graph, (g.map (·.1)).Nodup → (∀ p ∈ g, p.2.Nodup) →
      (((cs.foldl (fun g c => if hasKeyG g c.1 then appendUnique g c.1 c.2 else g) g).map
          (·.1)).Nodup ∧
        ∀ p ∈ cs.foldl (fun g c => if hasKeyG g c.1 then appendUnique g c.1 c.2 else g) g,
          p.2.Nodup) := by
  induction cs with
  | nil => intro g h1 h2; exact ⟨h1, h2⟩
  | cons c cs ih =>
    intro g h1 h2
    rw [List.foldl_cons]
    by_cases hk : hasKeyG g c.1
    · rw [if_pos hk]
      exact ih _ (by rw [appendUnique_map_fst]; exact h1) (appendUnique_values_nodup g c.1 c.2 h2)
    · rw [if_neg hk]
      exact ih _ h1 h2

lemma mem_graphPairs_fst (g : Graph) (x : String × String) (hx : x ∈ graphPairs g) :
    x.1 ∈ g.map (·.1) := by
  simp only [graphPairs, List.mem_flatMap] at hx
  rcases hx with ⟨p, hp, hx⟩
  rcases List.mem_map.mp hx with ⟨c, _, rfl⟩
  exact List.mem_map.mpr ⟨p, hp, rfl⟩

lemma graphPairs_nodup (g : Graph)
    (h1 : (g.map (·.1)).Nodup) (h2 : ∀ p ∈ g, p.2.Nodup) : (graphPairs g).Nodup := by
  induction g with
  | nil => simp [graphPairs]
  | cons p g ih =>
    rw [List.map_cons, List.nodup_cons] at h1
    simp only [graphPairs, List.flatMap_cons]
    rw [List.nodup_append]
    refine ⟨?_, ?_, ?_⟩
    · refine (h2 p (List.mem_cons_self _ _)).map ?_
      intro a b hab
      simpa using congrArg Prod.snd hab
    · exact ih h1.2 (fun q hq => h2 q (List.mem_cons_of_mem _ hq))
    · intro a ha hb
      rcases List.mem_map.mp ha with ⟨c, _, rfl⟩
      have hfst := mem_graphPairs_fst g _ hb
      exact h1.1 (by simpa using hfst)

/-- C7: in the call graph produced by `_build_call_graph`, no
(caller, callee) pair occurs more than once — node keys are unique and each
caller's callee list is duplicate-free, so the emitted edge list has no
repeated pair. -/
theorem call_graph_pairs_unique (functions : List String) (calls : List (String × String)) :
    (graphPairs (buildCallGraph functions calls)).Nodup := by
  unfold buildCallGraph
  obtain ⟨h1, h2⟩ := foldl_ensureKey_wf functions [] (by simp) (by simp)
  obtain ⟨h1', h2'⟩ := foldl_addEdges_wf calls _ h1 h2
  exact graphPairs_nodup _ h1' h2'

end CParser

/-- C8 counterexample: a missing input file makes `_parse_source_code` raise
`FileNotFoundError`, and the `parse_files` reading loop propagates the same
error instead of skipping the file and continuing the batch. -/
theorem missing_file_raises :
    CParser.parseSourceCode trivialParse [] "missing.c" =
        Except.error "FileNotFoundError: missing.c" ∧
      PyCallExtractor.readAllFiles [] ["missing.c"] =
        Except.error "FileNotFoundError: missing.c" :=
  ⟨rfl, rfl⟩

/-- C8 (amended): a missing input file causes a `FileNotFoundError` to
propagate out of the fact-extraction entry points and aborts the whole
batch; no empty per-file fact set is recorded.  (Undecodable bytes, by
contrast, are ignored during decoding and never raise.) -/
theorem missing_file_aborts_batch :
    (∀ (parse : String → CNode) (fs : CParser.FileSystem) (path : String),
        CParser.readFile fs path = none →
          CParser.parseSourceCode parse fs path =
            Except.error ("FileNotFoundError: " ++ path)) ∧
      (∀ (fs : CParser.FileSystem) (paths : List String) (p : String), p ∈ paths →
          CParser.readFile fs p = none →
          ∃ msg, PyCallExtractor.readAllFiles fs paths = Except.error msg) := by
  constructor
  · intro parse fs path h
    unfold CParser.parseSourceCode
    rw [h]
  · intro fs paths
    induction paths with
    | nil =>
      intro p hp
      cases hp
    | cons q qs ih =>
      intro p hp hnone
      rcases List.mem_cons.mp hp with hpq | hp'
      · subst hpq
        refine ⟨"FileNotFoundError: " ++ p, ?_⟩
        unfold PyCallExtractor.readAllFiles
        rw [hnone]
      · cases hq : CParser.readFile fs q with
        | none =>
          refine ⟨"FileNotFoundError: " ++ q, ?_⟩
          unfold PyCallExtractor.readAllFiles
          rw [hq]
        | some code =>
          obtain ⟨msg, hmsg⟩ := ih p hp' hnone
          refine ⟨msg, ?_⟩
          unfold PyCallExtractor.readAllFiles
          rw [hq, hmsg]
          rfl

/-- Witness for the amended C8 at an empty filesystem and a one-file batch. -/
theorem missing_file_aborts_batch_witness :
    CParser.readFile ([] : CParser.FileSystem) "a.c" = none ∧
      ∃ msg, PyCallExtractor.readAllFiles [] ["a.c"] = Except.error msg :=
  ⟨rfl, missing_file_aborts_batch.2 [] ["a.c"] "a.c" (List.mem_singleton.mpr rfl) rfl⟩

/-- C9: `_get_all_functions` rebuilds `self.all_functions` from scratch
(`self.all_functions = {}` first), so running it twice over the same
unchanged file set yields the identical name-to-FunctionFact-list mapping,
and the result never depends on state accumulated by earlier runs. -/
theorem register_all_idempotent (parse : String → CNode) (files : List (String × String))
    (st st' : PyCallExtractor.ExtractorState) :
    (PyCallExtractor.getAllFunctions parse
          (PyCallExtractor.getAllFunctions parse st files) files).all_functions =
        (PyCallExtractor.getAllFunctions parse st files).all_functions ∧
      (PyCallExtractor.getAllFunctions parse st files).all_functions =
        (PyCallExtractor.getAllFunctions parse st' files).all_functions :=
  ⟨rfl, rfl⟩

namespace SnippetExtractor

lemma parsePyObjectCall_shape (callText sourceCode : String) (raw : RawSnippets)
    (p : ParsedCall) (h : parsePyObjectCall callText sourceCode raw = some p) :
    p.call_type = "PyObject_CallObject" ∧ p.raw_code = callText := by
  unfold parsePyObjectCall at h
  cases hm : Rex.searchFirst Rex.tryCallObject callText.toList with
  | none =>
    rw [hm] at h
    cases h
  | some gr =>
    obtain ⟨g, rest⟩ := gr
    rw [hm] at h
    cases h
    exact ⟨rfl, rfl⟩

lemma parsePythonCallsStep_inv (sourceCode : String) (raw : RawSnippets)
    (acc : List ParsedCall) (call : String) (hcall : call ∈ raw.function_calls)
    (hacc : ∀ e ∈ acc, e.call_type = "PyObject_CallObject" ∧
      e.raw_code ∈ raw.function_calls ∧
      strContains e.raw_code "PyObject_CallObject" = true) :
    ∀ e ∈ parsePythonCallsStep sourceCode raw acc call,
      e.call_type = "PyObject_CallObject" ∧ e.raw_code ∈ raw.function_calls ∧
        strContains e.raw_code "PyObject_CallObject" = true := by
  unfold parsePythonCallsStep
  split_ifs with hcon
  · cases hp : parsePyObjectCall call sourceCode raw with
    | none =>
      intro e he
      exact hacc e he
    | some p =>
      intro e he
      rcases List.mem_append.mp he with h | h
      · exact hacc e h
      · simp only [List.mem_singleton] at h
        subst h
        obtain ⟨hct, hrc⟩ := parsePyObjectCall_shape call sourceCode raw e hp
        exact ⟨hct, hrc ▸ hcall, hrc ▸ hcon⟩
  · exact hacc

lemma parsePythonCalls_foldl_inv (sourceCode : String) (raw : RawSnippets)
    (l : List String) :
    ∀ acc : List ParsedCall,
      (∀ c ∈ l, c ∈ raw.function_calls) →
      (∀ e ∈ acc, e.call_type = "PyObject_CallObject" ∧
        e.raw_code ∈ raw.function_calls ∧
        strContains e.raw_code "PyObject_CallObject" = true) →
      ∀ e ∈ l.foldl (parsePythonCallsStep sourceCode raw) acc,
        e.call_type = "PyObject_CallObject" ∧ e.raw_code ∈ raw.function_calls ∧
          strContains e.raw_code "PyObject_CallObject" = true := by
  induction l with
  | nil =>
    intro acc _ hacc e he
    exact hacc e he
  | cons c cs ih =>
    intro acc hl hacc e he
    rw [List.foldl_cons] at he
    refine ih _ (fun c' hc' => hl c' (List.mem_cons_of_mem _ hc')) ?_ e he
    exact parsePythonCallsStep_inv sourceCode raw acc c (hl c (List.mem_cons_self _ _)) hacc

/-- C10 counterexample: the snippet
`PyObject_Call(PyObject_CallObject(f, a), b, c)` — a call site whose callee
is `PyObject_Call`, one of the other recognized invocation APIs — does
produce a parsed-call entry, because the filter tests substring containment
of `PyObject_CallObject` in the snippet text. -/
theorem pyobject_call_site_produces_entry :
    ((extractPythonCallsFromAst nestedCallNode "").2.map (fun e => e.raw_code)) =
      ["PyObject_Call(PyObject_CallObject(f, a), b, c)", "PyObject_CallObject(f, a)"] := by
  decide

/-- C10 (amended): every parsed-call entry is typed `PyObject_CallObject`
and stems from a collected call snippet whose text contains
`PyObject_CallObject` as a substring; a snippet without that substring — in
particular a plain call of any other recognized invocation API — never
produces an entry. -/
theorem parsed_entries_only_callobject_text (raw : RawSnippets) (sourceCode : String) :
    (∀ e ∈ parsePythonCalls raw sourceCode,
        e.call_type = "PyObject_CallObject" ∧ e.raw_code ∈ raw.function_calls ∧
          strContains e.raw_code "PyObject_CallObject" = true) ∧
      (∀ c ∈ raw.function_calls, strContains c "PyObject_CallObject" = false →
        ∀ e ∈ parsePythonCalls raw sourceCode, e.raw_code ≠ c) := by
  have hmain := parsePythonCalls_foldl_inv sourceCode raw raw.function_calls []
    (fun _ hc => hc) (by intro e he; cases he)
  constructor
  · exact hmain
  · intro c _ hcon e he heq
    have := (hmain e he).2.2
    rw [heq, hcon] at this
    cases this

/-- Witness for the amended C10 at a one-snippet collector output. -/
theorem parsed_entries_only_callobject_witness :
    ({ call_type := "PyObject_CallObject", function_name := none, arguments := [],
       python_call := none,
       raw_code := "PyObject_CallObject(f, a)" } : ParsedCall).call_type =
        "PyObject_CallObject" ∧
      ("PyObject_CallObject(f, a)" : String) ∈
        (⟨["PyObject_CallObject(f, a)"], [], []⟩ : RawSnippets).function_calls :=
  have h := (parsed_entries_only_callobject_text
    ⟨["PyObject_CallObject(f, a)"], [], []⟩ "").1
    { call_type := "PyObject_CallObject", function_name := none, arguments := [],
      python_call := none, raw_code := "PyObject_CallObject(f, a)" } (by decide)
  ⟨h.1, h.2.1⟩

end SnippetExtractor

end PyCTrace
